import Mathlib

/-!
Verification of the SQL-fragment builders in `helpers/sql.js` of the
express-jobly repository: `sqlForPartialUpdate` and `sqlForWhereClause`.

JavaScript objects with string keys are modelled as association lists in
property-insertion order, which is the iteration order of `Object.keys` and
`Object.values` for such objects.  The in-place assignment
`queries["name"] = ...` performed by `sqlForWhereClause` is modelled by
returning the final state of the argument object alongside the result.
-/

namespace Jobly

/-- A JavaScript object with string keys and string values, as an
association list in property-insertion order. -/
abbrev JsObj := List (String × String)

/-- `Object.keys(o)`. -/
def objectKeys (o : JsObj) : List String := o.map Prod.fst

/-- `Object.values(o)`. -/
def objectValues (o : JsObj) : List String := o.map Prod.snd

/-- Property read `o[k]`: `some v` when the key is present, `none` for
`undefined`. -/
def objGet (o : JsObj) (k : String) : Option String :=
  (o.find? (fun p => p.1 == k)).map Prod.snd

/-- Property write `o[k] = v`: rewrites an existing entry in place, keeping
its position; appends a new entry otherwise. -/
def objSet (o : JsObj) (k v : String) : JsObj :=
  if (o.find? (fun p => p.1 == k)).isSome then
    o.map (fun p => if p.1 == k then (k, v) else p)
  else o ++ [(k, v)]

/-- Removes every entry with the given key (a key absent from the object). -/
def objDelete (o : JsObj) (k : String) : JsObj :=
  o.filter (fun p => !(p.1 == k))

/-- JavaScript truthiness of a string-or-undefined value: `undefined` and the
empty string are falsy, every other string is truthy. -/
def truthy : Option String → Bool
  | none => false
  | some s => s != ""

/-- JavaScript `a || b` where `a` is a string-or-undefined and `b` a string:
yields `a` when `a` is truthy, `b` otherwise. -/
def jsOr (a : Option String) (b : String) : String :=
  match a with
  | none => b
  | some s => if s = "" then b else s

/-- `Array.prototype.join(sep)` on an array of strings. -/
def jsJoin (sep : String) : List String → String
  | [] => ""
  | [x] => x
  | x :: y :: rest => x ++ sep ++ jsJoin sep (y :: rest)

/-- `s.startsWith(p)` of JavaScript: `p` is a leading substring of `s`,
stated on the character lists of the two strings. -/
def strStartsWith (s p : String) : Bool :=
  p.data.isPrefixOf s.data

/-- Modelled from the spec: the single error kind `InvalidInput`, which the
source raises as `new BadRequestError(msg)`; the class itself lives in
`expressError.js`, outside the helper sources.  It carries a message. -/
inductive ExpressError : Type
  | badRequest (msg : String)
deriving DecidableEq

/-- Result object of `sqlForPartialUpdate`. -/
structure UpdateResult where
  setCols : String
  values : List String
deriving DecidableEq

/-- One element of the `cols` array built by `sqlForPartialUpdate`:
`"${jsToSql[colName] || colName}"=$${idx + 1}`. -/
def colAssignment (jsToSql : JsObj) (colName : String) (idx : Nat) : String :=
  "\"" ++ jsOr (objGet jsToSql colName) colName ++ "\"=$" ++ Nat.repr (idx + 1)

/-- `sqlForPartialUpdate(dataToUpdate, jsToSql)` from `helpers/sql.js`:
throws `BadRequestError("No data")` when the data object has no keys,
otherwise joins the per-key assignments with `", "` and pairs them with
`Object.values(dataToUpdate)`. -/
def sqlForPartialUpdate (dataToUpdate jsToSql : JsObj) :
    Except ExpressError UpdateResult :=
  let keys := objectKeys dataToUpdate
  if keys.length = 0 then .error (.badRequest "No data")
  else
    let cols := keys.enum.map (fun p => colAssignment jsToSql p.2 p.1)
    .ok { setCols := jsJoin ", " cols, values := objectValues dataToUpdate }

/-- Result object of `sqlForWhereClause`. -/
structure WhereResult where
  whereCondition : String
  values : List String
deriving DecidableEq

/-- The fragment the `keys.map` callback of `sqlForWhereClause` produces for
one search term: `none` models the `undefined` the callback falls through to
when the term is neither `"name"` nor `min`/`max`-prefixed. -/
def whereFragment (searchTerm : String) (idx : Nat) : Option String :=
  if searchTerm ≠ "name" then
    if strStartsWith searchTerm "min" then
      some ("num_employees >= $" ++ Nat.repr (idx + 1))
    else if strStartsWith searchTerm "max" then
      some ("num_employees <= $" ++ Nat.repr (idx + 1))
    else none
  else some ("name ILIKE $" ++ Nat.repr (idx + 1))

/-- The `conditions` array of `sqlForWhereClause`. -/
def whereConditions (queries : JsObj) : List (Option String) :=
  (objectKeys queries).enum.map (fun p => whereFragment p.2 p.1)

/-- `conditions.join(" AND ")`: `Array.prototype.join` stringifies
`undefined` elements as the empty string. -/
def joinConditions (conds : List (Option String)) : String :=
  jsJoin " AND " (conds.map (fun c => c.getD ""))

/-- `sqlForWhereClause(queries)` from `helpers/sql.js`.  Returns the result
object together with the final state of the argument object: when
`queries.name` is truthy the source rewrites `queries["name"]` in place to
the wildcard-wrapped value before reading `Object.values(queries)`. -/
def sqlForWhereClause (queries : JsObj) : WhereResult × JsObj :=
  let conditions := whereConditions queries
  let queries' :=
    if truthy (objGet queries "name") then
      objSet queries "name" ("%" ++ (objGet queries "name").getD "" ++ "%")
    else queries
  ({ whereCondition := joinConditions conditions,
     values := objectValues queries' },
   queries')

/-- Number of `$N` positional placeholders in a list of characters:
occurrences of a dollar sign immediately followed by a decimal digit. -/
def countPlaceholdersAux : List Char → Nat
  | [] => 0
  | [_] => 0
  | a :: b :: rest =>
    (if a == '$' && b.isDigit then 1 else 0) + countPlaceholdersAux (b :: rest)

/-- Number of `$N` positional placeholders appearing in a clause string. -/
def countPlaceholders (s : String) : Nat :=
  countPlaceholdersAux s.data

example :
    sqlForPartialUpdate
      [("firstName", "Benji"), ("lastName", "Mac")]
      [("firstName", "first_name"), ("lastName", "last_name")] =
    .ok { setCols := "\"first_name\"=$1, \"last_name\"=$2",
          values := ["Benji", "Mac"] } := rfl

example :
    sqlForWhereClause [("name", "gree"), ("minEmployees", "10"), ("maxEmployees", "200")] =
    ({ whereCondition := "name ILIKE $1 AND num_employees >= $2 AND num_employees <= $3",
       values := ["%gree%", "10", "200"] },
     [("name", "%gree%"), ("minEmployees", "10"), ("maxEmployees", "200")]) := by decide

/-- The assignment list the spec contract describes for the partial-update
builder, written as a recursion carrying the next 1-based placeholder index:
one double-quoted column per field in mapping iteration order, the column
being the alias when the lookup holds a usable one and the raw key
otherwise, the indices strictly increasing with no gaps. -/
def claimAssignments (jsToSql : JsObj) : List String → Nat → List String
  | [], _ => []
  | k :: rest, n =>
    ("\"" ++ jsOr (objGet jsToSql k) k ++ "\"=$" ++ Nat.repr n)
      :: claimAssignments jsToSql rest (n + 1)

lemma enumFrom_colAssignment (j : JsObj) (ks : List String) :
    ∀ off : Nat,
      (List.enumFrom off ks).map (fun p => colAssignment j p.2 p.1)
        = claimAssignments j ks (off + 1) := by
  induction ks with
  | nil => intro off; rfl
  | cons k rest ih =>
    intro off
    simp only [List.enumFrom, List.map_cons, claimAssignments]
    rw [ih (off + 1)]
    rfl

/-- C1: for every non-empty field mapping and every alias lookup,
`sqlForPartialUpdate` returns the comma-joined assignments
`"column"=$N` in mapping iteration order with 1-based gap-free indices,
paired with the values of the mapping in the same order; in particular the
spec example on `{firstName, lastName}` with snake-case aliases yields
`"first_name"=$1, "last_name"=$2` and `["Benji", "Mac"]`. -/
theorem partialUpdate_contract (d j : JsObj) (h : d ≠ []) :
    sqlForPartialUpdate d j =
      .ok { setCols := jsJoin ", " (claimAssignments j (objectKeys d) 1),
            values := objectValues d } ∧
    sqlForPartialUpdate [("firstName", "Benji"), ("lastName", "Mac")]
        [("firstName", "first_name"), ("lastName", "last_name")] =
      .ok { setCols := "\"first_name\"=$1, \"last_name\"=$2",
            values := ["Benji", "Mac"] } := by
  refine ⟨?_, rfl⟩
  have hlen : ¬((objectKeys d).length = 0) := by
    simp only [objectKeys, List.length_map, List.length_eq_zero]
    exact h
  have he := enumFrom_colAssignment j (objectKeys d) 0
  simp only [sqlForPartialUpdate, if_neg hlen, List.enum]
  rw [he]

/-- Witness for C1 at a concrete one-field mapping. -/
theorem partialUpdate_contract_wit :
    ([("a", "1")] : JsObj) ≠ [] ∧
    (sqlForPartialUpdate [("a", "1")] [] =
      .ok { setCols := jsJoin ", " (claimAssignments [] (objectKeys [("a", "1")]) 1),
            values := objectValues [("a", "1")] } ∧
     sqlForPartialUpdate [("firstName", "Benji"), ("lastName", "Mac")]
        [("firstName", "first_name"), ("lastName", "last_name")] =
      .ok { setCols := "\"first_name\"=$1, \"last_name\"=$2",
            values := ["Benji", "Mac"] }) :=
  ⟨by decide, partialUpdate_contract [("a", "1")] [] (by decide)⟩

/-- C2: `sqlForPartialUpdate` fails with the InvalidInput error
(`BadRequestError("No data")`) exactly on the empty field mapping, and
returns a result exactly on every non-empty field mapping, whatever the
alias lookup. -/
theorem partialUpdate_empty_error (d j : JsObj) :
    (sqlForPartialUpdate d j = .error (.badRequest "No data") ↔ d = []) ∧
    ((sqlForPartialUpdate d j).isOk = true ↔ d.isEmpty = false) := by
  cases d with
  | nil => simp [sqlForPartialUpdate, objectKeys, Except.isOk, Except.toBool]
  | cons p rest =>
    simp [sqlForPartialUpdate, objectKeys, Except.isOk, Except.toBool]

/-- C3 (failing evaluation): on the filter mapping with the single invalid
key `foo`, the returned clause holds no positional placeholder while the
returned values list has one element, so placeholder count and value count
disagree. -/
theorem whereClause_placeholder_mismatch :
    countPlaceholders (sqlForWhereClause [("foo", "1")]).1.whereCondition = 0 ∧
    (sqlForWhereClause [("foo", "1")]).1.values.length = 1 := by decide

/-- C4 (counterexample): on the filter mapping with `name` bound to the
empty (falsy) string, the fragment `name ILIKE $1` is still emitted but the
corresponding value is passed through unwrapped instead of becoming `%%`. -/
theorem whereClause_falsy_name_cex :
    (sqlForWhereClause [("name", "")]).1.whereCondition = "name ILIKE $1" ∧
    (sqlForWhereClause [("name", "")]).1.values = [""] ∧
    (sqlForWhereClause [("name", "")]).1.values ≠ ["%" ++ "" ++ "%"] := by
  decide

/-- The fragment list the spec describes for a filter mapping made only of
min- and max-prefixed keys: a `>=` bound for a min-prefixed key and a `<=`
bound for a max-prefixed one, both against the fixed column
`num_employees`, with 1-based indices carried by the counter argument. -/
def minMaxFragments : List String → Nat → List String
  | [], _ => []
  | k :: rest, n =>
    ((if strStartsWith k "min" then "num_employees >= $" else "num_employees <= $")
      ++ Nat.repr n) :: minMaxFragments rest (n + 1)

lemma enumFrom_minMax (ks : List String)
    (h : ∀ k ∈ ks, strStartsWith k "min" = true ∨ strStartsWith k "max" = true) :
    ∀ off : Nat,
      (List.enumFrom off ks).map (fun p => (whereFragment p.2 p.1).getD "")
        = minMaxFragments ks (off + 1) := by
  induction ks with
  | nil => intro off; rfl
  | cons k rest ih =>
    intro off
    have hk := h k (List.mem_cons_self k rest)
    have hkname : k ≠ "name" := by
      rintro rfl
      rcases hk with hc | hc <;> exact absurd hc (by decide)
    simp only [List.enumFrom, List.map_cons, minMaxFragments]
    rw [ih (fun a ha => h a (List.mem_cons_of_mem _ ha)) (off + 1)]
    by_cases hmin : strStartsWith k "min" = true
    · simp [whereFragment, hkname, hmin]
    · have hmax : strStartsWith k "max" = true := hk.resolve_left hmin
      simp [whereFragment, hkname, hmin, hmax]

lemma objGet_name_none (qs : JsObj)
    (h : ∀ k ∈ objectKeys qs, strStartsWith k "min" = true ∨ strStartsWith k "max" = true) :
    objGet qs "name" = none := by
  unfold objGet
  rw [List.find?_eq_none.mpr]
  · rfl
  · intro p hp hb
    have hmem : p.1 ∈ objectKeys qs := List.mem_map_of_mem _ hp
    have hpname : p.1 = "name" := by simpa using hb
    rw [hpname] at hmem
    rcases h "name" hmem with hc | hc <;> exact absurd hc (by decide)

/-- Absence of the SQL wildcard character from a string. -/
abbrev noPercent (s : String) : Prop := ∀ c ∈ s.data, c ≠ '%'

lemma digitChar_isDigit (m : Nat) (h : m < 10) :
    (Nat.digitChar m).isDigit = true := by
  interval_cases m <;> decide

lemma toDigitsCore_isDigit :
    ∀ (fuel n : Nat) (ds : List Char), (∀ c ∈ ds, c.isDigit = true) →
      ∀ c ∈ Nat.toDigitsCore 10 fuel n ds, c.isDigit = true := by
  intro fuel
  induction fuel with
  | zero =>
    intro n ds h c hc
    simp only [Nat.toDigitsCore] at hc
    exact h c hc
  | succ f ih =>
    intro n ds h c hc
    simp only [Nat.toDigitsCore] at hc
    split at hc
    · rcases List.mem_cons.mp hc with rfl | hmem
      · exact digitChar_isDigit _ (Nat.mod_lt _ (by decide))
      · exact h c hmem
    · refine ih (n / 10) _ ?_ c hc
      intro x hx
      rcases List.mem_cons.mp hx with rfl | hmem
      · exact digitChar_isDigit _ (Nat.mod_lt _ (by decide))
      · exact h x hmem

lemma repr_isDigit (n : Nat) : ∀ c ∈ (Nat.repr n).data, c.isDigit = true := by
  intro c hc
  have hd : (Nat.repr n).data = Nat.toDigits 10 n := rfl
  rw [hd] at hc
  refine toDigitsCore_isDigit (n + 1) n [] ?_ c hc
  intro x hx
  cases hx

lemma noPercent_append (a b : String) (ha : noPercent a) (hb : noPercent b) :
    noPercent (a ++ b) := by
  intro c hc
  rw [String.data_append] at hc
  rcases List.mem_append.mp hc with h | h
  · exact ha c h
  · exact hb c h

lemma noPercent_repr (n : Nat) : noPercent (Nat.repr n) := by
  intro c hc e
  have hd := repr_isDigit n c hc
  rw [e] at hd
  exact absurd hd (by decide)

lemma noPercent_whereFragment (k : String) (i : Nat) (s : String)
    (h : whereFragment k i = some s) : noPercent s := by
  unfold whereFragment at h
  split at h
  · split at h
    · cases h
      exact noPercent_append _ _ (by decide) (noPercent_repr _)
    · split at h
      · cases h
        exact noPercent_append _ _ (by decide) (noPercent_repr _)
      · cases h
  · cases h
    exact noPercent_append _ _ (by decide) (noPercent_repr _)

lemma noPercent_jsJoin (sep : String) (l : List String) (hsep : noPercent sep)
    (h : ∀ s ∈ l, noPercent s) : noPercent (jsJoin sep l) := by
  induction l with
  | nil => intro c hc; simp [jsJoin] at hc
  | cons x rest ih =>
    cases rest with
    | nil =>
      intro c hc
      simp only [jsJoin] at hc
      exact h x (by simp) c hc
    | cons y t =>
      intro c hc
      simp only [jsJoin] at hc
      refine noPercent_append _ _
        (noPercent_append _ _ (h x (by simp)) hsep)
        (ih ?_) c hc
      intro s hs
      exact h s (List.mem_cons_of_mem _ hs)

lemma noPercent_clause (qs : JsObj) :
    noPercent (sqlForWhereClause qs).1.whereCondition := by
  have hq : (sqlForWhereClause qs).1.whereCondition
      = joinConditions (whereConditions qs) := rfl
  rw [hq]
  unfold joinConditions
  refine noPercent_jsJoin _ _ (by decide) ?_
  intro s hs
  rcases List.mem_map.mp hs with ⟨c, hc, rfl⟩
  simp only [whereConditions] at hc
  rcases List.mem_map.mp hc with ⟨p, _, he⟩
  cases c with
  | none => intro ch hch; simp at hch
  | some t => exact noPercent_whereFragment p.2 p.1 t he

lemma find?_middle (qs₁ qs₂ : JsObj) (k v : String)
    (h : k ∉ objectKeys qs₁) :
    (qs₁ ++ (k, v) :: qs₂).find? (fun p => p.1 == k) = some (k, v) := by
  induction qs₁ with
  | nil => simp [List.find?]
  | cons p rest ih =>
    simp only [objectKeys, List.map_cons, List.mem_cons, not_or] at h
    have hb : (p.1 == k) = false := by
      simp only [beq_eq_false_iff_ne, ne_eq]
      exact fun e => h.1 e.symm
    simp only [List.cons_append, List.find?, hb]
    exact ih (by simpa [objectKeys] using h.2)

lemma objGet_middle (qs₁ qs₂ : JsObj) (k v : String)
    (h : k ∉ objectKeys qs₁) :
    objGet (qs₁ ++ (k, v) :: qs₂) k = some v := by
  unfold objGet
  rw [find?_middle qs₁ qs₂ k v h]
  rfl

lemma map_setEntry_id (o : JsObj) (k w : String) (h : k ∉ objectKeys o) :
    o.map (fun p => if p.1 == k then (k, w) else p) = o := by
  induction o with
  | nil => rfl
  | cons p rest ih =>
    simp only [objectKeys, List.map_cons, List.mem_cons, not_or] at h
    have hb : (p.1 == k) = false := by
      simp only [beq_eq_false_iff_ne, ne_eq]
      exact fun e => h.1 e.symm
    simp only [List.map_cons, hb, Bool.false_eq_true, if_false]
    rw [ih (by simpa [objectKeys] using h.2)]

lemma objSet_middle (qs₁ qs₂ : JsObj) (k v w : String)
    (h₁ : k ∉ objectKeys qs₁) (h₂ : k ∉ objectKeys qs₂) :
    objSet (qs₁ ++ (k, v) :: qs₂) k w = qs₁ ++ (k, w) :: qs₂ := by
  unfold objSet
  rw [find?_middle qs₁ qs₂ k v h₁]
  simp only [Option.isSome_some, if_true]
  rw [List.map_append, List.map_cons]
  rw [map_setEntry_id qs₁ k w h₁, map_setEntry_id qs₂ k w h₂]
  simp

lemma whereConditions_getElem (qs₁ qs₂ : JsObj) (k v : String) :
    (whereConditions (qs₁ ++ (k, v) :: qs₂))[qs₁.length]?
      = some (whereFragment k qs₁.length) := by
  unfold whereConditions
  rw [List.getElem?_map, List.getElem?_enum]
  have hk : (objectKeys (qs₁ ++ (k, v) :: qs₂))[qs₁.length]? = some k := by
    simp only [objectKeys, List.map_append, List.map_cons]
    rw [List.getElem?_append_right (by simp)]
    simp
  rw [hk]
  rfl

/-- C4 (amended): on every filter mapping holding the key `name` once, with
a non-empty (truthy) string value `v`, `sqlForWhereClause` emits the
fragment `name ILIKE $N` for that entry at its 1-based position `N`, the
corresponding entry of the returned values list is `v` wrapped as `%v%`,
and the wildcard character never appears in the returned clause string.
The mapping is presented as the entries before `name`, the `name` entry,
and the entries after it. -/
theorem whereClause_name_filter (qs₁ qs₂ : JsObj) (v : String)
    (h₁ : "name" ∉ objectKeys qs₁) (h₂ : "name" ∉ objectKeys qs₂)
    (hv : v ≠ "") :
    (whereConditions (qs₁ ++ ("name", v) :: qs₂))[qs₁.length]?
      = some (some ("name ILIKE $" ++ Nat.repr (qs₁.length + 1))) ∧
    (sqlForWhereClause (qs₁ ++ ("name", v) :: qs₂)).1.values
      = objectValues qs₁ ++ ("%" ++ v ++ "%") :: objectValues qs₂ ∧
    noPercent (sqlForWhereClause (qs₁ ++ ("name", v) :: qs₂)).1.whereCondition := by
  refine ⟨?_, ?_, noPercent_clause _⟩
  · rw [whereConditions_getElem]
    simp [whereFragment]
  · have hg : objGet (qs₁ ++ ("name", v) :: qs₂) "name" = some v :=
      objGet_middle _ _ _ _ h₁
    have ht : (v != "") = true := by simpa using hv
    simp only [sqlForWhereClause, hg, truthy, ht, if_true, Option.getD_some]
    rw [objSet_middle qs₁ qs₂ "name" v _ h₁ h₂]
    simp [objectValues]

/-- Witness for C4 (amended) at the singleton mapping of the spec example,
`{name: "gree"}`. -/
theorem whereClause_name_filter_wit :
    ("name" ∉ objectKeys ([] : JsObj)) ∧ ("gree" : String) ≠ "" ∧
    ((whereConditions (([] : JsObj) ++ ("name", "gree") :: ([] : JsObj)))[List.length ([] : JsObj)]?
       = some (some ("name ILIKE $" ++ Nat.repr (List.length ([] : JsObj) + 1))) ∧
     (sqlForWhereClause (([] : JsObj) ++ ("name", "gree") :: ([] : JsObj))).1.values
       = objectValues ([] : JsObj) ++ ("%" ++ "gree" ++ "%") :: objectValues ([] : JsObj) ∧
     noPercent (sqlForWhereClause (([] : JsObj) ++ ("name", "gree") :: ([] : JsObj))).1.whereCondition) :=
  ⟨by decide, by decide,
   whereClause_name_filter [] [] "gree" (by decide) (by decide) (by decide)⟩

/-- C5: on a filter mapping whose keys are all min- or max-prefixed,
`sqlForWhereClause` emits `num_employees >= $N` for each min-prefixed key
and `num_employees <= $N` for each max-prefixed key, joins the fragments
with `" AND "` in iteration order, returns the filter values unchanged in
the same order, and leaves the argument object untouched; in particular
`{minEmployees: "10", maxEmployees: "200"}` yields
`num_employees >= $1 AND num_employees <= $2` with values
`["10", "200"]`. -/
theorem whereClause_minmax (qs : JsObj)
    (h : ∀ k ∈ objectKeys qs, strStartsWith k "min" = true ∨ strStartsWith k "max" = true) :
    sqlForWhereClause qs =
      ({ whereCondition := jsJoin " AND " (minMaxFragments (objectKeys qs) 1),
         values := objectValues qs }, qs) ∧
    sqlForWhereClause [("minEmployees", "10"), ("maxEmployees", "200")] =
      ({ whereCondition := "num_employees >= $1 AND num_employees <= $2",
         values := ["10", "200"] },
       [("minEmployees", "10"), ("maxEmployees", "200")]) := by
  refine ⟨?_, by decide⟩
  have hname := objGet_name_none qs h
  have he := enumFrom_minMax (objectKeys qs) h 0
  simp only [sqlForWhereClause, whereConditions, joinConditions, hname, truthy,
    Bool.false_eq_true, if_false, List.enum, List.map_map, Function.comp_def]
  rw [he]

/-- Witness for C5 at the concrete two-filter mapping of the spec
example. -/
theorem whereClause_minmax_wit :
    (∀ k ∈ objectKeys [("minEmployees", "10"), ("maxEmployees", "200")],
      strStartsWith k "min" = true ∨ strStartsWith k "max" = true) ∧
    (sqlForWhereClause [("minEmployees", "10"), ("maxEmployees", "200")] =
      ({ whereCondition :=
           jsJoin " AND "
             (minMaxFragments
               (objectKeys [("minEmployees", "10"), ("maxEmployees", "200")]) 1),
         values := objectValues [("minEmployees", "10"), ("maxEmployees", "200")] },
       [("minEmployees", "10"), ("maxEmployees", "200")]) ∧
     sqlForWhereClause [("minEmployees", "10"), ("maxEmployees", "200")] =
      ({ whereCondition := "num_employees >= $1 AND num_employees <= $2",
         values := ["10", "200"] },
       [("minEmployees", "10"), ("maxEmployees", "200")])) :=
  ⟨by decide, whereClause_minmax
    [("minEmployees", "10"), ("maxEmployees", "200")] (by decide)⟩

/-- C6 (failing evaluation): `sqlForWhereClause` rewrites the `name` entry
of the caller-supplied filter mapping in place: called on `{name: "a"}` it
leaves the argument object holding `{name: "%a%"}`, not its original
value. -/
theorem whereClause_mutates_input :
    (sqlForWhereClause [("name", "a")]).2 = [("name", "%a%")] ∧
    [("name", "%a%")] ≠ ([("name", "a")] : JsObj) := by decide

/-- C7 (failing evaluation): running `sqlForWhereClause` twice on the same
filter mapping object is not idempotent: the first run on `{name: "a"}`
returns the values `["%a%"]` and leaves the object mutated, so the second
run wraps again and returns `["%%a%%"]`. -/
theorem whereClause_rerun_differs :
    (sqlForWhereClause [("name", "a")]).1.values = ["%a%"] ∧
    (sqlForWhereClause (sqlForWhereClause [("name", "a")]).2).1.values
      = ["%%a%%"] ∧
    (sqlForWhereClause (sqlForWhereClause [("name", "a")]).2).1
      ≠ (sqlForWhereClause [("name", "a")]).1 := by decide

/-- C8 (failing evaluation): on a filter mapping whose only key is neither
`name` nor `min`/`max`-prefixed, `sqlForWhereClause` raises no error: it
returns normally with an empty clause while keeping the orphaned value. -/
theorem whereClause_unknown_key_no_error :
    sqlForWhereClause [("invalid", "x")] =
      ({ whereCondition := "", values := ["x"] }, [("invalid", "x")]) := by
  decide

/-- C9: on the empty filter mapping `sqlForWhereClause` returns normally
with an empty clause string and an empty values list (and the argument
object is left empty). -/
theorem whereClause_empty :
    sqlForWhereClause [] = ({ whereCondition := "", values := [] }, []) := rfl

lemma objGet_delete_self (j : JsObj) (k : String) :
    objGet (objDelete j k) k = none := by
  unfold objGet objDelete
  rw [List.find?_eq_none.mpr]
  · rfl
  · intro p hp hb
    have := List.of_mem_filter hp
    rw [hb] at this
    exact absurd this (by decide)

lemma objGet_delete_ne (j : JsObj) (k a : String) (h : a ≠ k) :
    objGet (objDelete j k) a = objGet j a := by
  induction j with
  | nil => rfl
  | cons p rest ih =>
    by_cases hp : p.1 = k
    · have hb : (p.1 == k) = true := by simpa using hp
      have ha : (p.1 == a) = false := by
        simp only [beq_eq_false_iff_ne, ne_eq]
        rintro rfl
        exact h hp
      simp only [objDelete, objGet, List.filter_cons, hb, Bool.not_true,
        List.find?] at ih ⊢
      rw [ha]
      exact ih
    · have hb : (p.1 == k) = false := by simpa using hp
      simp only [objDelete, objGet, List.filter_cons, hb, Bool.not_false,
        List.find?] at ih ⊢
      cases hpa : (p.1 == a)
      · simpa [objDelete, objGet, hpa] using ih
      · simp [objDelete, objGet, hpa]

lemma colAssignment_delete (j : JsObj) (k : String) (hk : objGet j k = some "")
    (a : String) (i : Nat) :
    colAssignment (objDelete j k) a i = colAssignment j a i := by
  unfold colAssignment
  by_cases hak : a = k
  · subst hak
    rw [hk, objGet_delete_self]
    rfl
  · rw [objGet_delete_ne j k a hak]

/-- C10: when the alias lookup maps a field key to the empty (falsy) string,
`sqlForPartialUpdate` behaves exactly as if that key were absent from the
lookup: it falls back to the raw key for the column, on every field mapping
alike. -/
theorem partialUpdate_falsy_alias (d j : JsObj) (k : String)
    (hk : objGet j k = some "") :
    sqlForPartialUpdate d j = sqlForPartialUpdate d (objDelete j k) := by
  unfold sqlForPartialUpdate
  by_cases h0 : (objectKeys d).length = 0
  · rw [if_pos h0, if_pos h0]
  · rw [if_neg h0, if_neg h0]
    have : (fun p : Nat × String => colAssignment j p.2 p.1)
        = fun p : Nat × String => colAssignment (objDelete j k) p.2 p.1 :=
      funext fun p => (colAssignment_delete j k hk p.2 p.1).symm
    rw [this]

/-- Witness for C10: the field `x`, aliased to the empty string, is rendered
under its raw name just as with no alias at all. -/
theorem partialUpdate_falsy_alias_wit :
    objGet [("x", "")] "x" = some "" ∧
    sqlForPartialUpdate [("x", "1")] [("x", "")] =
      sqlForPartialUpdate [("x", "1")] (objDelete [("x", "")] "x") :=
  ⟨rfl, partialUpdate_falsy_alias [("x", "1")] [("x", "")] "x" rfl⟩

end Jobly
